import Mathlib

/-!
Verification of the spreadsheet interaction engine of the
me-media-performance-dashboard repository.

The engine lives in `src/hooks/use-spreadsheet.ts` (selection/editing state
machine, keyboard router, clipboard paste parser) with the cell value
formatter in `src/lib/utils.ts` (`formatNumber`, `formatCellValue`,
`parseNumberInput`) and the grid component
`src/components/shared/hierarchical-spreadsheet-grid.tsx` wiring double-click
to `startEditing`.

The embedding models JavaScript strings as Lean `String`, JS numbers as `ℚ`
(all values arising in the verified claims are exactly representable, so the
rational model agrees with IEEE doubles on them), React `useState` state as an
explicit record threaded through the transition functions, and callback
invocations (`onCellChange`, `onBatchCellChange`) as an emitted event list.
The DOM table inspected by `moveCell`/`handlePaste` is modelled by a
`TableModel` record carrying the counts the code reads off the live table.
All definitions are executable and use structural recursion only, so concrete
runs evaluate by `decide`.
-/

/-! ## JavaScript string primitives

`String.prototype.split` with a single-character separator,
`String.prototype.trim`, `String.prototype.includes`, and `parseFloat`.
Whitespace is modelled by `Char.isWhitespace` (space, tab, CR, LF), which
covers every whitespace character occurring in this development.
-/

/-- JS `s.split(sep)` for a one-character separator, on the character list.
`''.split(sep)` is `['']`, so the empty list maps to `[[]]`. -/
def splitOnChar (sep : Char) : List Char → List (List Char)
  | [] => [[]]
  | c :: cs =>
    let r := splitOnChar sep cs
    if c = sep then [] :: r
    else
      match r with
      | [] => [[c]]
      | g :: gs => (c :: g) :: gs

/-- JS `s.split(sep)` for a one-character separator. -/
def jsSplit (sep : Char) (s : String) : List String :=
  (splitOnChar sep s.toList).map List.asString

/-- JS `s.trim()`: strip leading and trailing whitespace. -/
def jsTrim (s : String) : String :=
  (((s.toList.dropWhile Char.isWhitespace).reverse.dropWhile
      Char.isWhitespace).reverse).asString

/-- JS `s.includes(c)` for a one-character needle. -/
def jsIncludes (c : Char) (s : String) : Bool :=
  s.toList.contains c

/-- Decimal digits of a character list read most-significant first,
as consumed by `parseFloat`: `foldl (10*acc + digit)`. -/
def digitsToNat (cs : List Char) : ℕ :=
  cs.foldl (fun a c => 10 * a + (c.toNat - 48)) 0

/-- JS `parseFloat`, restricted to the decimal-literal fragment
(optional sign, integer digits, optional fraction; no exponent part —
none of the strings this development touches carries one).
`none` models `NaN`. Trailing garbage is ignored, as in JS. -/
def jsParseFloat (s : String) : Option ℚ :=
  let cs := s.toList.dropWhile Char.isWhitespace
  let neg := cs.head? = some '-'
  let cs1 := if cs.head? = some '-' ∨ cs.head? = some '+' then cs.tail else cs
  let intDs := cs1.takeWhile Char.isDigit
  let rest := cs1.dropWhile Char.isDigit
  let fracDs : List Char :=
    if rest.head? = some '.' then rest.tail.takeWhile Char.isDigit else []
  if intDs = [] ∧ fracDs = [] then none
  else
    let ip : ℚ := (digitsToNat intDs : ℚ)
    let fq : ℚ := (digitsToNat fracDs : ℚ) / (10 : ℚ) ^ fracDs.length
    some ((if neg then (-1 : ℚ) else 1) * (ip + fq))

/-! ## Cell value formatter (`src/lib/utils.ts`) -/

/-- Little-endian decimal digit values of `n`; fuel-driven so the recursion is
structural (`[]` for `0`, like the mathematical digit expansion). -/
def natToDigitsLE : ℕ → ℕ → List ℕ
  | 0, _ => []
  | fuel + 1, n => if n = 0 then [] else n % 10 :: natToDigitsLE fuel (n / 10)

/-- The decimal digit character for a value below ten. -/
def digitChar : ℕ → Char
  | 0 => '0' | 1 => '1' | 2 => '2' | 3 => '3' | 4 => '4'
  | 5 => '5' | 6 => '6' | 7 => '7' | 8 => '8' | _ => '9'

/-- Decimal digit characters of `n`, most significant first; `"0"` for zero. -/
def natToDigits (n : ℕ) : List Char :=
  if n = 0 then ['0'] else (natToDigitsLE n n).reverse.map digitChar

/-- Chunk a character list into groups of three (last group possibly
shorter), front to back. -/
def chunk3 : List Char → List (List Char)
  | [] => []
  | [a] => [[a]]
  | [a, b] => [[a, b]]
  | [a, b, c] => [[a, b, c]]
  | a :: b :: c :: d :: rest => [a, b, c] :: chunk3 (d :: rest)

/-- Join character groups with a comma between adjacent groups. -/
def joinWithComma : List (List Char) → List Char
  | [] => []
  | [g] => g
  | g :: gs => g ++ ',' :: joinWithComma gs

/-- `Intl.NumberFormat('ja-JP')` digit grouping: a comma every three digits
counting from the right. -/
def groupThousands (ds : List Char) : List Char :=
  joinWithComma (((chunk3 ds.reverse).map List.reverse).reverse)

/-- Left-pad a digit list with `'0'` to width `d`. -/
def padLeftZeros (d : ℕ) (l : List Char) : List Char :=
  List.replicate (d - l.length) '0' ++ l

/-- `Intl.NumberFormat('ja-JP', {minimumFractionDigits: d,
maximumFractionDigits: d}).format(q)` on the rational model: the sign is
split off, the absolute value is rounded to `d` fraction digits with ties
away from zero (ECMA-402 ToRawFixed picks the larger candidate), the integer
part is comma-grouped and exactly `d` fraction digits are printed. -/
def intlFormat (q : ℚ) (d : ℕ) : String :=
  let neg := q < 0
  let m : ℚ := |q|
  let n : ℕ := (round (m * (10 : ℚ) ^ d)).toNat
  let ip := n / 10 ^ d
  let fp := n % 10 ^ d
  let intPart := groupThousands (natToDigits ip)
  let body := if d = 0 then intPart else intPart ++ '.' :: padLeftZeros d (natToDigits fp)
  (if neg then '-' :: body else body).asString

/-- `formatNumber(value, options?)` from `src/lib/utils.ts`: daily view
defaults to two fraction digits, monthly view to zero, unless `decimals`
overrides. -/
def formatNumber (value : ℚ) (decimals : Option ℕ) (isDailyView : Bool) : String :=
  let decimalPlaces := if isDailyView then decimals.getD 2 else decimals.getD 0
  intlFormat value decimalPlaces

/-- The `string | number` argument of `formatCellValue`. -/
inductive CellNumInput where
  | str (s : String)
  | num (q : ℚ)

/-- `formatCellValue(value, isDailyView = false)` from `src/lib/utils.ts`:
strings go through `parseFloat`, `NaN` renders as `"0"`, numbers are
formatted by `formatNumber` with no `decimals` override. -/
def formatCellValue (value : CellNumInput) (isDailyView : Bool) : String :=
  let numValue : Option ℚ :=
    match value with
    | .str s => jsParseFloat s
    | .num q => some q
  match numValue with
  | none => "0"
  | some q => formatNumber q none isDailyView

/-- The `value.replace(/[,\s]/g, '')` step of `parseNumberInput`: delete
every comma and whitespace character. -/
def stripSeparators (value : String) : String :=
  (value.toList.filter fun c => !(c = ',' || c.isWhitespace)).asString

/-- `parseNumberInput(value)` from `src/lib/utils.ts`: delete every comma and
whitespace character (`/[,\s]/g`), `parseFloat` the rest, `NaN` becomes `0`. -/
def parseNumberInput (value : String) : ℚ :=
  match jsParseFloat (stripSeparators value) with
  | none => 0
  | some q => q

/-! ## Engine state (`src/hooks/use-spreadsheet.ts`) -/

/-- The `SpreadsheetCell` interface: `{ row, col, value }`. -/
structure SpreadsheetCell where
  row : Int
  col : Int
  value : String
deriving DecidableEq

/-- One pending cell change `{row, col, value}` as pushed by `handlePaste`. -/
structure CellChange where
  row : Int
  col : Int
  value : String
deriving DecidableEq

/-- Callback invocations emitted by the engine towards the host:
`onCellChange(row, col, value)` and `onBatchCellChange(changes)`. -/
inductive SpreadsheetEvent where
  | cellChange (row col : Int) (value : String)
  | batchCellChange (changes : List CellChange)
deriving DecidableEq

/-- The hook configuration: `rowCount`, the `isEditingDisabled` flag, the
optional `getCellValue` lookup, and whether an `onBatchCellChange` callback
was supplied (which switches `handlePaste` between batch and per-cell
emission). -/
structure Config where
  rowCount : Int
  isEditingDisabled : Bool
  getCellValue : Option (Int → Int → String)
  hasBatch : Bool

/-- The three `useState` fields of the hook: `selectedCell`, `editingCell`,
`editValue`. -/
structure EngineState where
  selectedCell : Option SpreadsheetCell
  editingCell : Option SpreadsheetCell
  editValue : String
deriving DecidableEq

/-- What the engine reads off the rendered table through `tableRef`:
the number of `tbody tr` rows, the number of `td, th` cells of the first row
(used by `moveCell`), the number of `td` cells of the first row (used by
`handlePaste`), and the `textContent || ''` of each body cell (the
`getCellValue`-absent fallback of `moveCell`). -/
structure TableModel where
  numRows : ℕ
  firstRowCells : ℕ
  firstRowTds : ℕ
  cellText : Int → Int → String

/-! ## Engine operations

Each operation returns the successor state together with the list of callback
invocations it performs, in order. Operations that call no callback return an
empty list by construction, mirroring the absence of any `onCellChange` /
`onBatchCellChange` call in their source.
-/

/-- `selectCell(row, col, value)`: set `selectedCell`, clear `editingCell`.
The source contains no callback call and leaves `editValue` untouched. -/
def selectCell (s : EngineState) (row col : Int) (value : String) :
    EngineState × List SpreadsheetEvent :=
  ({ s with selectedCell := some ⟨row, col, value⟩, editingCell := none }, [])

/-- `startEditing(row, col, value)`: no-op when editing is disabled;
otherwise set `editingCell`, `editValue := String(value)` and `selectedCell`.
(The focus/select `setTimeout` is a DOM side effect outside the model.) -/
def startEditing (cfg : Config) (s : EngineState) (row col : Int)
    (value : String) : EngineState × List SpreadsheetEvent :=
  if cfg.isEditingDisabled then (s, [])
  else
    ({ s with
        editingCell := some ⟨row, col, value⟩,
        editValue := value,
        selectedCell := some ⟨row, col, value⟩ }, [])

/-- `finishEditing(save = true)`: no-op without an `editingCell`; otherwise
emit `onCellChange` when saving a buffer that differs from the value captured
at edit start, then clear `editingCell` and `editValue`. The source reads the
`isEditingDisabled` flag nowhere in this function. -/
def finishEditing (_cfg : Config) (s : EngineState) (save : Bool) :
    EngineState × List SpreadsheetEvent :=
  match s.editingCell with
  | none => (s, [])
  | some ec =>
    let evs :=
      if save ∧ s.editValue ≠ ec.value then
        [SpreadsheetEvent.cellChange ec.row ec.col s.editValue]
      else []
    ({ s with editingCell := none, editValue := "" }, evs)

/-- `moveCell(newRow, newCol)`: drop the request when there is no table or no
rendered row; otherwise clamp to `[0, rows.length-1] × [0, cells.length-1]`
(first row `td, th` count — the row exists, so the JS `cells ? _ : 0`
fallback never fires), look the value up via `getCellValue` or the DOM
`textContent` fallback, and select. -/
def moveCell (cfg : Config) (tbl : Option TableModel) (s : EngineState)
    (newRow newCol : Int) : EngineState × List SpreadsheetEvent :=
  match tbl with
  | none => (s, [])
  | some t =>
    let maxRow : Int := (t.numRows : Int) - 1
    if maxRow < 0 then (s, [])
    else
      let maxCol : Int := (t.firstRowCells : Int) - 1
      let targetRow := max 0 (min newRow maxRow)
      let targetCol := max 0 (min newCol maxCol)
      let cellValue :=
        match cfg.getCellValue with
        | some f => f targetRow targetCol
        | none => t.cellText targetRow targetCol
      selectCell s targetRow targetCol cellValue

/-- `handleKeyDown(e)` for `e.key = key`. Early return without a selection;
then the editing branch (Enter commit-and-advance, Tab commit-and-move,
Escape cancel), then the disabled branch (arrows only), then the enabled
branch (arrows, Enter/F2 edit start from the selection snapshot,
Delete/Backspace immediate clear, anything else ignored). -/
def handleKeyDown (cfg : Config) (tbl : Option TableModel) (s : EngineState)
    (key : String) : EngineState × List SpreadsheetEvent :=
  match s.selectedCell with
  | none => (s, [])
  | some sel =>
    let row := sel.row
    let col := sel.col
    if s.editingCell.isSome then
      if key = "Enter" then
        let r1 := finishEditing cfg s true
        let nextRow := row + 1
        if nextRow < cfg.rowCount then
          let cellValue :=
            match cfg.getCellValue with
            | some f => f nextRow col
            | none => ""
          let r2 := startEditing cfg r1.1 nextRow col cellValue
          (r2.1, r1.2 ++ r2.2)
        else
          ({ r1.1 with selectedCell := none }, r1.2)
      else if key = "Tab" then
        let r1 := finishEditing cfg s true
        let r2 := moveCell cfg tbl r1.1 row (col + 1)
        (r2.1, r1.2 ++ r2.2)
      else if key = "Escape" then
        finishEditing cfg s false
      else (s, [])
    else if cfg.isEditingDisabled then
      if key = "ArrowUp" then moveCell cfg tbl s (row - 1) col
      else if key = "ArrowDown" then moveCell cfg tbl s (row + 1) col
      else if key = "ArrowLeft" then moveCell cfg tbl s row (col - 1)
      else if key = "ArrowRight" then moveCell cfg tbl s row (col + 1)
      else (s, [])
    else
      if key = "ArrowUp" then moveCell cfg tbl s (row - 1) col
      else if key = "ArrowDown" then moveCell cfg tbl s (row + 1) col
      else if key = "ArrowLeft" then moveCell cfg tbl s row (col - 1)
      else if key = "ArrowRight" then moveCell cfg tbl s row (col + 1)
      else if key = "Enter" ∨ key = "F2" then
        startEditing cfg s row col sel.value
      else if key = "Delete" ∨ key = "Backspace" then
        (s, [SpreadsheetEvent.cellChange row col ""])
      else (s, [])

/-- The change list built by the two nested `forEach` loops of `handlePaste`,
pushing into one shared `cellChanges` array: split lines (dropping one
trailing empty line), skip lines whose `trim()` is falsy, split on tab when
one is present, clip each target to `[0, maxRows) × [0, dataCols)`, trim the
value and replace an empty trim by `"0"`. -/
def pasteCellChanges (startRow startCol : Int) (maxRows : ℕ) (dataCols : Int)
    (text : String) : List CellChange :=
  let lines0 := jsSplit '\n' text
  let lines := if lines0.getLast? = some "" then lines0.dropLast else lines0
  lines.enum.foldl
    (fun acc p =>
      let rowOffset := p.1
      let line := p.2
      if jsTrim line = "" then acc
      else
        let cellValues := if jsIncludes '\t' line then jsSplit '\t' line else [line]
        cellValues.enum.foldl
          (fun acc2 q =>
            let colOffset := q.1
            let cellValue := q.2
            let targetRow : Int := startRow + rowOffset
            let targetCol : Int := startCol + colOffset
            if 0 ≤ targetRow ∧ targetRow < (maxRows : Int) ∧
                0 ≤ targetCol ∧ targetCol < dataCols then
              acc2 ++ [{ row := targetRow, col := targetCol,
                         value := if jsTrim cellValue = "" then "0"
                                  else jsTrim cellValue }]
            else acc2)
          acc)
    []

/-- The emission tail of `handlePaste`: one `onBatchCellChange` call when the
callback exists and more than one change resulted, otherwise one
`onCellChange` call per change. -/
def dispatchChanges (cfg : Config) (changes : List CellChange) :
    List SpreadsheetEvent :=
  if cfg.hasBatch ∧ 1 < changes.length then
    [SpreadsheetEvent.batchCellChange changes]
  else
    changes.map fun c => SpreadsheetEvent.cellChange c.row c.col c.value

/-- `handlePaste(e)` for clipboard text `text`: no-op when editing is
disabled, no cell is selected, or the table is not mounted. `maxRows` is the
`tbody tr` count; `totalCols` is the first row's `td` count
(`rows[0]?... || 0`, hence `0` without a row); `dataCols = totalCols - 1`.
The engine state itself never changes. -/
def handlePaste (cfg : Config) (tbl : Option TableModel) (s : EngineState)
    (text : String) : EngineState × List SpreadsheetEvent :=
  if cfg.isEditingDisabled then (s, [])
  else
    match s.selectedCell with
    | none => (s, [])
    | some sel =>
      match tbl with
      | none => (s, [])
      | some t =>
        let maxRows := t.numRows
        let totalCols : ℕ := if t.numRows = 0 then 0 else t.firstRowTds
        let dataCols : Int := (totalCols : Int) - 1
        (s, dispatchChanges cfg
          (pasteCellChanges sel.row sel.col maxRows dataCols text))

/-- The grid component's double-click handler
(`hierarchical-spreadsheet-grid.tsx`):
`onDoubleClick={() => startEditing(r, c, getCellValue(r, c))}`, where `f`
models the component's (total) `getCellValue` function. -/
def gridDoubleClick (cfg : Config) (f : Int → Int → String) (s : EngineState)
    (row col : Int) : EngineState × List SpreadsheetEvent :=
  startEditing cfg s row col (f row col)

/-! ## Generic facts used by the proofs -/

attribute [local semireducible] Rat.add Rat.mul Rat.inv Rat.sub Rat.ofScientific

/-- `handlePaste` never touches the engine state. -/
theorem handlePaste_fst (cfg : Config) (tbl : Option TableModel)
    (s : EngineState) (text : String) : (handlePaste cfg tbl s text).1 = s := by
  unfold handlePaste
  split
  · rfl
  · split
    · rfl
    · split
      · rfl
      · rfl

/-! ## The selection/editing alignment invariant (claim C9) -/

/-- The §3 invariant: a non-null `editingCell` forces a non-null
`selectedCell` with the same coordinates. -/
def editSelAligned (s : EngineState) : Bool :=
  match s.editingCell, s.selectedCell with
  | some ec, some sc => sc.row == ec.row && sc.col == ec.col
  | some _, none => false
  | none, _ => true

theorem aligned_of_no_edit {s : EngineState} (h : s.editingCell = none) :
    editSelAligned s = true := by
  unfold editSelAligned
  rw [h]

theorem aligned_selectCell (s : EngineState) (r c : Int) (v : String) :
    editSelAligned (selectCell s r c v).1 = true := by
  simp [selectCell, editSelAligned]

theorem aligned_startEditing (cfg : Config) (s : EngineState) (r c : Int)
    (v : String) (h : editSelAligned s = true) :
    editSelAligned (startEditing cfg s r c v).1 = true := by
  unfold startEditing
  split
  · exact h
  · simp [editSelAligned]

theorem aligned_finishEditing (cfg : Config) (s : EngineState) (save : Bool)
    (h : editSelAligned s = true) :
    editSelAligned (finishEditing cfg s save).1 = true := by
  unfold finishEditing
  split
  · exact h
  · exact aligned_of_no_edit rfl

theorem finishEditing_clears (cfg : Config) (s : EngineState) (save : Bool) :
    (finishEditing cfg s save).1.editingCell = none := by
  unfold finishEditing
  split
  · assumption
  · rfl

theorem aligned_moveCell (cfg : Config) (tbl : Option TableModel)
    (s : EngineState) (a b : Int) (h : editSelAligned s = true) :
    editSelAligned (moveCell cfg tbl s a b).1 = true := by
  unfold moveCell
  cases tbl with
  | none => exact h
  | some t =>
    by_cases hm : ((t.numRows : Int) - 1) < 0
    · simpa [hm] using h
    · simp only [hm, if_false]
      exact aligned_selectCell ..

theorem aligned_handleKeyDown (cfg : Config) (tbl : Option TableModel)
    (s : EngineState) (key : String) (h : editSelAligned s = true) :
    editSelAligned (handleKeyDown cfg tbl s key).1 = true := by
  unfold handleKeyDown
  repeat' ((try dsimp only); split)
  all_goals (try dsimp only)
  all_goals first
    | exact h
    | exact aligned_of_no_edit (finishEditing_clears _ _ _)
    | exact aligned_startEditing _ _ _ _ _
        (aligned_of_no_edit (finishEditing_clears _ _ _))
    | exact aligned_startEditing _ _ _ _ _ h
    | exact aligned_moveCell _ _ _ _ _ (aligned_finishEditing _ _ _ h)
    | exact aligned_moveCell _ _ _ _ _ h

/-! ## Claims -/

/-- C9: every engine operation (`selectCell`, `startEditing`, `finishEditing`,
`handleKeyDown` — hence also the compound Enter-commit-then-re-edit and
Tab-commit-then-move transitions — and `handlePaste`) preserves the invariant
that a non-null Editing Cell is accompanied by a Selected Cell with identical
`(row, col)`. -/
theorem claim_C9_alignment_invariant (cfg : Config) (tbl : Option TableModel)
    (s : EngineState) (r c : Int) (v : String) (save : Bool) (key text : String)
    (hinv : editSelAligned s = true) :
    editSelAligned (selectCell s r c v).1 = true ∧
    editSelAligned (startEditing cfg s r c v).1 = true ∧
    editSelAligned (finishEditing cfg s save).1 = true ∧
    editSelAligned (handleKeyDown cfg tbl s key).1 = true ∧
    editSelAligned (handlePaste cfg tbl s text).1 = true :=
  ⟨aligned_selectCell s r c v,
   aligned_startEditing cfg s r c v hinv,
   aligned_finishEditing cfg s save hinv,
   aligned_handleKeyDown cfg tbl s key hinv,
   by rw [handlePaste_fst]; exact hinv⟩

theorem claim_C9_alignment_invariant_witness :
    editSelAligned (selectCell ⟨some ⟨0, 0, "7"⟩, some ⟨0, 0, "7"⟩, "8"⟩ 1 2 "x").1 = true ∧
    editSelAligned (startEditing ⟨3, false, none, false⟩
      ⟨some ⟨0, 0, "7"⟩, some ⟨0, 0, "7"⟩, "8"⟩ 1 2 "x").1 = true ∧
    editSelAligned (finishEditing ⟨3, false, none, false⟩
      ⟨some ⟨0, 0, "7"⟩, some ⟨0, 0, "7"⟩, "8"⟩ true).1 = true ∧
    editSelAligned (handleKeyDown ⟨3, false, none, false⟩ none
      ⟨some ⟨0, 0, "7"⟩, some ⟨0, 0, "7"⟩, "8"⟩ "Enter").1 = true ∧
    editSelAligned (handlePaste ⟨3, false, none, false⟩ none
      ⟨some ⟨0, 0, "7"⟩, some ⟨0, 0, "7"⟩, "8"⟩ "1\t2").1 = true :=
  claim_C9_alignment_invariant ⟨3, false, none, false⟩ none
    ⟨some ⟨0, 0, "7"⟩, some ⟨0, 0, "7"⟩, "8"⟩ 1 2 "x" true "Enter" "1\t2" (by decide)

/-- C8: `selectCell(row, col, value)`, from any state including Editing,
results in the Selected state at the new cell with the Editing Cell cleared
unconditionally, and emits no callback at all (in particular never
`onCellChange`): an in-progress edit is silently abandoned. -/
theorem claim_C8_selectCell_abandons_edit (s : EngineState) (r c : Int)
    (v : String) :
    selectCell s r c v =
      ({ s with selectedCell := some ⟨r, c, v⟩, editingCell := none },
       ([] : List SpreadsheetEvent)) := rfl

/-- C10: with no Selected Cell, `handleKeyDown` is a complete no-op for every
key — no state field changes and no callback is emitted — even though
`startEditing` itself, called directly in the Idle state with editing
enabled, does start an edit. -/
theorem claim_C10_keydown_requires_selection (cfg : Config)
    (tbl : Option TableModel) (s : EngineState) (key : String) (r c : Int)
    (v : String) (hsel : s.selectedCell = none)
    (hdis : cfg.isEditingDisabled = false) :
    handleKeyDown cfg tbl s key = (s, []) ∧
    (startEditing cfg s r c v).1.editingCell = some ⟨r, c, v⟩ := by
  constructor
  · unfold handleKeyDown
    rw [hsel]
  · simp [startEditing, hdis]

theorem claim_C10_keydown_requires_selection_witness :
    handleKeyDown ⟨3, false, none, false⟩ none ⟨none, some ⟨0, 0, "9"⟩, "9"⟩ "Enter" =
      (⟨none, some ⟨0, 0, "9"⟩, "9"⟩, []) ∧
    (startEditing ⟨3, false, none, false⟩ ⟨none, some ⟨0, 0, "9"⟩, "9"⟩ 1 1 "v").1.editingCell =
      some ⟨1, 1, "v"⟩ :=
  claim_C10_keydown_requires_selection ⟨3, false, none, false⟩ none
    ⟨none, some ⟨0, 0, "9"⟩, "9"⟩ "Enter" 1 1 "v" rfl rfl

/-- C5: `finishEditing(save)` emits `onCellChange(row, col, buffer)` exactly
when `save` is true and the buffer differs from the value captured at
edit-start; in every case the Editing Cell is cleared, the buffer is
discarded and the selection is untouched (back to Selected at the same
cell). Escape routes through `finishEditing(false)`, which emits nothing. -/
theorem claim_C5_finishEditing_commit_iff (cfg : Config)
    (tbl : Option TableModel) (s : EngineState) (save : Bool)
    (ec sel : SpreadsheetCell) (hed : s.editingCell = some ec)
    (hsel : s.selectedCell = some sel) :
    (finishEditing cfg s save).2 =
      (if save = true ∧ s.editValue ≠ ec.value then
        [SpreadsheetEvent.cellChange ec.row ec.col s.editValue]
      else []) ∧
    (finishEditing cfg s save).1 = { s with editingCell := none, editValue := "" } ∧
    (finishEditing cfg s save).1.selectedCell = s.selectedCell ∧
    (handleKeyDown cfg tbl s "Escape").2 = [] := by
  refine ⟨?_, ?_, ?_, ?_⟩
  · unfold finishEditing
    rw [hed]
  · unfold finishEditing
    rw [hed]
  · unfold finishEditing
    rw [hed]
  · unfold handleKeyDown
    rw [hsel]
    simp only [hed, Option.isSome_some, if_true]
    unfold finishEditing
    rw [hed]
    simp

theorem claim_C5_finishEditing_commit_iff_witness :
    (finishEditing ⟨3, false, none, false⟩
        ⟨some ⟨0, 0, "10"⟩, some ⟨0, 0, "10"⟩, "20"⟩ false).2 =
      (if false = true ∧ "20" ≠ "10" then
        [SpreadsheetEvent.cellChange 0 0 "20"]
      else []) ∧
    (finishEditing ⟨3, false, none, false⟩
        ⟨some ⟨0, 0, "10"⟩, some ⟨0, 0, "10"⟩, "20"⟩ false).1 =
      { selectedCell := some ⟨0, 0, "10"⟩, editingCell := none, editValue := "" } ∧
    (finishEditing ⟨3, false, none, false⟩
        ⟨some ⟨0, 0, "10"⟩, some ⟨0, 0, "10"⟩, "20"⟩ false).1.selectedCell =
      some ⟨0, 0, "10"⟩ ∧
    (handleKeyDown ⟨3, false, none, false⟩ none
        ⟨some ⟨0, 0, "10"⟩, some ⟨0, 0, "10"⟩, "20"⟩ "Escape").2 = [] :=
  claim_C5_finishEditing_commit_iff ⟨3, false, none, false⟩ none
    ⟨some ⟨0, 0, "10"⟩, some ⟨0, 0, "10"⟩, "20"⟩ false ⟨0, 0, "10"⟩ ⟨0, 0, "10"⟩
    rfl rfl

/-- C4: while editing at `(row, col)` (editing enabled, `getCellValue`
supplied), Enter commits via `finishEditing(save=true)` — emitting the change
exactly when the buffer differs from the captured value — and then, if
`row+1 < rowCount`, immediately re-enters edit mode at `(row+1, col)` with
that cell's live value from `getCellValue`; otherwise the selection is
cleared entirely and no new edit is started. -/
theorem claim_C4_enter_commits_and_advances (cfg : Config)
    (tbl : Option TableModel) (s : EngineState) (row col : Int)
    (v bv : String) (f : Int → Int → String)
    (hdis : cfg.isEditingDisabled = false)
    (hf : cfg.getCellValue = some f)
    (hsel : s.selectedCell = some ⟨row, col, v⟩)
    (hed : s.editingCell = some ⟨row, col, bv⟩) :
    (handleKeyDown cfg tbl s "Enter").2 =
      (if s.editValue ≠ bv then [SpreadsheetEvent.cellChange row col s.editValue]
       else []) ∧
    (row + 1 < cfg.rowCount →
      (handleKeyDown cfg tbl s "Enter").1 =
        { selectedCell := some ⟨row + 1, col, f (row + 1) col⟩,
          editingCell := some ⟨row + 1, col, f (row + 1) col⟩,
          editValue := f (row + 1) col }) ∧
    (¬ row + 1 < cfg.rowCount →
      (handleKeyDown cfg tbl s "Enter").1 =
        { selectedCell := none, editingCell := none, editValue := "" }) := by
  unfold handleKeyDown
  rw [hsel]
  simp only [hed, Option.isSome_some, if_true, hf]
  unfold finishEditing startEditing
  rw [hed]
  simp only [hdis, if_false, if_true]
  refine ⟨?_, ?_, ?_⟩
  · split <;> simp_all
  · intro hlt
    simp [hlt]
  · intro hlt
    simp [hlt]

theorem claim_C4_enter_commits_and_advances_witness :
    (handleKeyDown ⟨3, false, some fun r c => s!"v{r}{c}", false⟩ none
        ⟨some ⟨0, 0, "v00"⟩, some ⟨0, 0, "v00"⟩, "5"⟩ "Enter").2 =
      (if "5" ≠ "v00" then [SpreadsheetEvent.cellChange 0 0 "5"] else []) ∧
    ((0 : Int) + 1 < (3 : Int) →
      (handleKeyDown ⟨3, false, some fun r c => s!"v{r}{c}", false⟩ none
          ⟨some ⟨0, 0, "v00"⟩, some ⟨0, 0, "v00"⟩, "5"⟩ "Enter").1 =
        { selectedCell := some ⟨0 + 1, 0, (fun r c => s!"v{r}{c}") (0 + 1) 0⟩,
          editingCell := some ⟨0 + 1, 0, (fun r c => s!"v{r}{c}") (0 + 1) 0⟩,
          editValue := (fun r c => s!"v{r}{c}") (0 + 1) 0 }) ∧
    (¬ (0 : Int) + 1 < (3 : Int) →
      (handleKeyDown ⟨3, false, some fun r c => s!"v{r}{c}", false⟩ none
          ⟨some ⟨0, 0, "v00"⟩, some ⟨0, 0, "v00"⟩, "5"⟩ "Enter").1 =
        { selectedCell := none, editingCell := none, editValue := "" }) :=
  claim_C4_enter_commits_and_advances ⟨3, false, some fun r c => s!"v{r}{c}", false⟩
    none ⟨some ⟨0, 0, "v00"⟩, some ⟨0, 0, "v00"⟩, "5"⟩ 0 0 "v00" "v00"
    (fun r c => s!"v{r}{c}") rfl rfl rfl rfl

/-- C2 (counterexample): with `getCellValue` returning `"fresh"` for every
cell and a selection whose snapshot value is `"stale"`, pressing Enter starts
editing with Edit Buffer `"stale"` — the stale selection snapshot — not the
`"fresh"` value that the value-lookup callback returns, refuting the claim
that every edit start fetches the buffer fresh via `getCellValue`. -/
theorem claim_C2_counterexample :
    (handleKeyDown ⟨2, false, some fun _ _ => "fresh", false⟩ none
        ⟨some ⟨0, 0, "stale"⟩, none, ""⟩ "Enter").1.editValue = "stale" ∧
    (handleKeyDown ⟨2, false, some fun _ _ => "fresh", false⟩ none
        ⟨some ⟨0, 0, "stale"⟩, none, ""⟩ "Enter").1.editingCell =
      some ⟨0, 0, "stale"⟩ ∧
    (handleKeyDown ⟨2, false, some fun _ _ => "fresh", false⟩ none
        ⟨some ⟨0, 0, "stale"⟩, none, ""⟩ "Enter").1.editValue ≠ "fresh" := by
  refine ⟨rfl, rfl, by decide⟩

/-- C2 (amended): when edit mode starts by double-click, the grid component
passes `getCellValue(row, col)`, so the Edit Buffer is the freshly fetched
value; when it starts by Enter/F2 on a selected cell, `handleKeyDown` passes
`selectedCell.value`, so the Edit Buffer is the snapshot captured when the
cell was selected (its last-known value), not a fresh `getCellValue` fetch. -/
theorem claim_C2_amended_buffer_sources (cfg : Config)
    (tbl : Option TableModel) (f : Int → Int → String) (s : EngineState)
    (row col : Int) (sel : SpreadsheetCell)
    (hdis : cfg.isEditingDisabled = false)
    (hsel : s.selectedCell = some sel)
    (hed : s.editingCell = none) :
    (gridDoubleClick cfg f s row col).1.editValue = f row col ∧
    (handleKeyDown cfg tbl s "Enter").1.editValue = sel.value ∧
    (handleKeyDown cfg tbl s "F2").1.editValue = sel.value := by
  refine ⟨?_, ?_, ?_⟩
  · simp [gridDoubleClick, startEditing, hdis]
  · unfold handleKeyDown
    rw [hsel]
    simp [hed, hdis, startEditing]
  · unfold handleKeyDown
    rw [hsel]
    simp [hed, hdis, startEditing]

theorem claim_C2_amended_buffer_sources_witness :
    (gridDoubleClick ⟨2, false, some fun _ _ => "fresh", false⟩
        (fun _ _ => "fresh") ⟨some ⟨0, 0, "stale"⟩, none, ""⟩ 0 0).1.editValue =
      (fun _ _ => "fresh") 0 0 ∧
    (handleKeyDown ⟨2, false, some fun _ _ => "fresh", false⟩ none
        ⟨some ⟨0, 0, "stale"⟩, none, ""⟩ "Enter").1.editValue =
      SpreadsheetCell.value ⟨0, 0, "stale"⟩ ∧
    (handleKeyDown ⟨2, false, some fun _ _ => "fresh", false⟩ none
        ⟨some ⟨0, 0, "stale"⟩, none, ""⟩ "F2").1.editValue =
      SpreadsheetCell.value ⟨0, 0, "stale"⟩ :=
  claim_C2_amended_buffer_sources ⟨2, false, some fun _ _ => "fresh", false⟩
    none (fun _ _ => "fresh") ⟨some ⟨0, 0, "stale"⟩, none, ""⟩ 0 0
    ⟨0, 0, "stale"⟩ rfl rfl rfl

theorem moveCell_snd (cfg : Config) (tbl : Option TableModel)
    (s : EngineState) (a b : Int) : (moveCell cfg tbl s a b).2 = [] := by
  unfold moveCell
  cases tbl with
  | none => rfl
  | some t =>
    by_cases hm : ((t.numRows : Int) - 1) < 0
    · simp [hm]
    · simp [hm, selectCell]

theorem moveCell_editValue (cfg : Config) (tbl : Option TableModel)
    (s : EngineState) (a b : Int) :
    (moveCell cfg tbl s a b).1.editValue = s.editValue := by
  unfold moveCell
  cases tbl with
  | none => rfl
  | some t =>
    by_cases hm : ((t.numRows : Int) - 1) < 0
    · simp [hm]
    · simp [hm, selectCell]

/-- C7 (counterexample): with `isEditingDisabled = true` but an edit in
progress (the flag may flip between renders), Enter still emits
`onCellChange(0, 0, "2")`: the commit transition is not suppressed by the
flag — `finishEditing` never reads it, and `handleKeyDown` consults the
editing branch before the disabled guard. This refutes the claim that every
mutating transition, commit included, is suppressed while disabled. -/
theorem claim_C7_counterexample :
    (handleKeyDown ⟨1, true, none, false⟩ none
        ⟨some ⟨0, 0, "1"⟩, some ⟨0, 0, "1"⟩, "2"⟩ "Enter").2 =
      [SpreadsheetEvent.cellChange 0 0 "2"] := by decide

/-- C7 (amended): when the Edit-Disabled flag is true, edit-start
(`startEditing`) and paste (`handlePaste`) are no-ops, and from a non-editing
state every non-arrow key (Enter, F2, Delete, Backspace, typing) leaves the
state unchanged and emits no callback, while the four arrow keys still route
to `moveCell`, which emits nothing and touches only the selection. The
commit path (`finishEditing`), however, is not guarded by the flag: if an
edit is somehow in progress while disabled, Enter/Tab still commit it. -/
theorem claim_C7_amended_disabled_suppression (cfg : Config)
    (tbl : Option TableModel) (s : EngineState) (sel : SpreadsheetCell)
    (r c a b : Int) (v text key : String)
    (hdis : cfg.isEditingDisabled = true)
    (hsel : s.selectedCell = some sel)
    (hed : s.editingCell = none)
    (hk1 : key ≠ "ArrowUp") (hk2 : key ≠ "ArrowDown")
    (hk3 : key ≠ "ArrowLeft") (hk4 : key ≠ "ArrowRight") :
    startEditing cfg s r c v = (s, []) ∧
    handlePaste cfg tbl s text = (s, []) ∧
    handleKeyDown cfg tbl s key = (s, []) ∧
    handleKeyDown cfg tbl s "ArrowUp" = moveCell cfg tbl s (sel.row - 1) sel.col ∧
    handleKeyDown cfg tbl s "ArrowDown" = moveCell cfg tbl s (sel.row + 1) sel.col ∧
    handleKeyDown cfg tbl s "ArrowLeft" = moveCell cfg tbl s sel.row (sel.col - 1) ∧
    handleKeyDown cfg tbl s "ArrowRight" = moveCell cfg tbl s sel.row (sel.col + 1) ∧
    (moveCell cfg tbl s a b).2 = [] ∧
    (moveCell cfg tbl s a b).1.editValue = s.editValue := by
  refine ⟨by simp [startEditing, hdis], by simp [handlePaste, hdis], ?_, ?_, ?_, ?_, ?_,
    moveCell_snd cfg tbl s a b, moveCell_editValue cfg tbl s a b⟩
  · unfold handleKeyDown
    rw [hsel]
    simp [hed, hdis, hk1, hk2, hk3, hk4]
  · unfold handleKeyDown
    rw [hsel]
    simp [hed, hdis]
  · unfold handleKeyDown
    rw [hsel]
    simp [hed, hdis]
  · unfold handleKeyDown
    rw [hsel]
    simp [hed, hdis]
  · unfold handleKeyDown
    rw [hsel]
    simp [hed, hdis]

theorem claim_C7_amended_disabled_suppression_witness :
    startEditing ⟨1, true, none, false⟩ ⟨some ⟨0, 0, "x"⟩, none, "buf"⟩ 5 6 "z" =
      (⟨some ⟨0, 0, "x"⟩, none, "buf"⟩, []) ∧
    handlePaste ⟨1, true, none, false⟩ none ⟨some ⟨0, 0, "x"⟩, none, "buf"⟩ "1\t2" =
      (⟨some ⟨0, 0, "x"⟩, none, "buf"⟩, []) ∧
    handleKeyDown ⟨1, true, none, false⟩ none ⟨some ⟨0, 0, "x"⟩, none, "buf"⟩ "Enter" =
      (⟨some ⟨0, 0, "x"⟩, none, "buf"⟩, []) ∧
    handleKeyDown ⟨1, true, none, false⟩ none ⟨some ⟨0, 0, "x"⟩, none, "buf"⟩ "ArrowUp" =
      moveCell ⟨1, true, none, false⟩ none ⟨some ⟨0, 0, "x"⟩, none, "buf"⟩
        (SpreadsheetCell.row ⟨0, 0, "x"⟩ - 1) (SpreadsheetCell.col ⟨0, 0, "x"⟩) ∧
    handleKeyDown ⟨1, true, none, false⟩ none ⟨some ⟨0, 0, "x"⟩, none, "buf"⟩ "ArrowDown" =
      moveCell ⟨1, true, none, false⟩ none ⟨some ⟨0, 0, "x"⟩, none, "buf"⟩
        (SpreadsheetCell.row ⟨0, 0, "x"⟩ + 1) (SpreadsheetCell.col ⟨0, 0, "x"⟩) ∧
    handleKeyDown ⟨1, true, none, false⟩ none ⟨some ⟨0, 0, "x"⟩, none, "buf"⟩ "ArrowLeft" =
      moveCell ⟨1, true, none, false⟩ none ⟨some ⟨0, 0, "x"⟩, none, "buf"⟩
        (SpreadsheetCell.row ⟨0, 0, "x"⟩) (SpreadsheetCell.col ⟨0, 0, "x"⟩ - 1) ∧
    handleKeyDown ⟨1, true, none, false⟩ none ⟨some ⟨0, 0, "x"⟩, none, "buf"⟩ "ArrowRight" =
      moveCell ⟨1, true, none, false⟩ none ⟨some ⟨0, 0, "x"⟩, none, "buf"⟩
        (SpreadsheetCell.row ⟨0, 0, "x"⟩) (SpreadsheetCell.col ⟨0, 0, "x"⟩ + 1) ∧
    (moveCell ⟨1, true, none, false⟩ none ⟨some ⟨0, 0, "x"⟩, none, "buf"⟩ 2 3).2 = [] ∧
    (moveCell ⟨1, true, none, false⟩ none ⟨some ⟨0, 0, "x"⟩, none, "buf"⟩ 2 3).1.editValue =
      EngineState.editValue ⟨some ⟨0, 0, "x"⟩, none, "buf"⟩ :=
  claim_C7_amended_disabled_suppression ⟨1, true, none, false⟩ none
    ⟨some ⟨0, 0, "x"⟩, none, "buf"⟩ ⟨0, 0, "x"⟩ 5 6 2 3 "z" "1\t2" "Enter"
    rfl rfl rfl (by decide) (by decide) (by decide) (by decide)

/-- C6: a requested move to `(targetRow, targetCol)` on a table rendered with
`rowCount` body rows and a non-empty first row selects the cell clamped by
`max 0 (min target limit)` with `maxRow = rowCount - 1` and `maxCol` the
first rendered row's cell count minus one (the sticky header column
accounting for the extra cell), the clamped coordinates landing in
`[0, maxRow] × [0, maxCol]`; with zero rendered rows the move request is
dropped with no state change. -/
theorem claim_C6_moveCell_clamps (cfg : Config) (t : TableModel)
    (s : EngineState) (tr tc : Int)
    (hrows : (t.numRows : Int) = cfg.rowCount)
    (hcells : 0 < t.firstRowCells) :
    (t.numRows = 0 → moveCell cfg (some t) s tr tc = (s, [])) ∧
    (0 < t.numRows →
      (∃ v, moveCell cfg (some t) s tr tc =
        ({ s with
            selectedCell := some ⟨max 0 (min tr (cfg.rowCount - 1)),
              max 0 (min tc ((t.firstRowCells : Int) - 1)), v⟩,
            editingCell := none }, [])) ∧
      0 ≤ max 0 (min tr (cfg.rowCount - 1)) ∧
      max 0 (min tr (cfg.rowCount - 1)) ≤ cfg.rowCount - 1 ∧
      0 ≤ max 0 (min tc ((t.firstRowCells : Int) - 1)) ∧
      max 0 (min tc ((t.firstRowCells : Int) - 1)) ≤ (t.firstRowCells : Int) - 1) := by
  constructor
  · intro h0
    unfold moveCell
    simp [h0]
  · intro hpos
    have hm : ¬ ((t.numRows : Int) - 1 < 0) := by omega
    have hrow0 : (0 : Int) ≤ cfg.rowCount - 1 := by omega
    have hcol0 : (0 : Int) ≤ (t.firstRowCells : Int) - 1 := by
      have : (1 : Int) ≤ (t.firstRowCells : Int) := by exact_mod_cast hcells
      omega
    refine ⟨?_, le_max_left 0 _, max_le hrow0 (min_le_right _ _),
      le_max_left 0 _, max_le hcol0 (min_le_right _ _)⟩
    unfold moveCell
    dsimp only
    rw [if_neg hm, hrows]
    exact ⟨_, rfl⟩

theorem claim_C6_moveCell_clamps_witness :
    ((⟨4, false, none, false⟩ : Config).rowCount = ((4 : ℕ) : Int)) ∧
    ((0 : ℕ) < 13) ∧
    ((4 : ℕ) = 0 →
      moveCell ⟨4, false, none, false⟩ (some ⟨4, 13, 13, fun _ _ => "d"⟩)
        ⟨none, none, ""⟩ 9 (-2) = (⟨none, none, ""⟩, [])) ∧
    (0 < (4 : ℕ) →
      (∃ v, moveCell ⟨4, false, none, false⟩ (some ⟨4, 13, 13, fun _ _ => "d"⟩)
        ⟨none, none, ""⟩ 9 (-2) =
        ({ selectedCell := some ⟨max 0 (min 9 ((4 : Int) - 1)),
              max 0 (min (-2) (((13 : ℕ) : Int) - 1)), v⟩,
           editingCell := none, editValue := "" }, [])) ∧
      0 ≤ max 0 (min 9 ((4 : Int) - 1)) ∧
      max 0 (min 9 ((4 : Int) - 1)) ≤ (4 : Int) - 1 ∧
      0 ≤ max 0 (min (-2) (((13 : ℕ) : Int) - 1)) ∧
      max 0 (min (-2) (((13 : ℕ) : Int) - 1)) ≤ ((13 : ℕ) : Int) - 1) :=
  ⟨by decide, by decide,
    (claim_C6_moveCell_clamps ⟨4, false, none, false⟩ ⟨4, 13, 13, fun _ _ => "d"⟩
      ⟨none, none, ""⟩ 9 (-2) (by decide) (by decide)).1,
    (claim_C6_moveCell_clamps ⟨4, false, none, false⟩ ⟨4, 13, 13, fun _ _ => "d"⟩
      ⟨none, none, ""⟩ 9 (-2) (by decide) (by decide)).2⟩

/-! ## Claim C1: the paste algorithm against its specification -/

/-- The §4.4 paste algorithm as the spec words it: split on newline, drop a
single trailing empty line; a blank (whitespace-only) line is skipped
entirely; otherwise the line is one cell value when it contains no tab, else
the tab-split values; each value at offsets `(dr, dc)` from the anchor is
emitted iff `0 ≤ anchor.row+dr < maxRows` and `0 ≤ anchor.col+dc <
dataColumnCount`, trimmed, with an empty trim becoming `"0"`; changes in
line order then value order. -/
def specPasteChanges (anchorRow anchorCol : Int) (maxRows dataCols : ℕ)
    (text : String) : List CellChange :=
  let lines0 := jsSplit '\n' text
  let lines := if lines0.getLast? = some "" then lines0.dropLast else lines0
  (lines.enum.map fun p =>
    let dr := p.1
    let line := p.2
    if line.toList.all Char.isWhitespace then []
    else
      let vals := if jsIncludes '\t' line = false then [line]
                  else jsSplit '\t' line
      vals.enum.filterMap fun q =>
        let dc := q.1
        let v := q.2
        let targetRow : Int := anchorRow + dr
        let targetCol : Int := anchorCol + dc
        if 0 ≤ targetRow ∧ targetRow < (maxRows : Int) ∧
            0 ≤ targetCol ∧ targetCol < (dataCols : Int) then
          some ⟨targetRow, targetCol, if jsTrim v = "" then "0" else jsTrim v⟩
        else none).flatten

theorem foldl_append_join {α β : Type} (g : α → List β) (l : List α)
    (acc : List β) :
    l.foldl (fun a q => a ++ g q) acc = acc ++ (l.map g).flatten := by
  induction l generalizing acc with
  | nil => simp
  | cons x xs ih => simp [ih]

theorem foldl_pushIf_filterMap {α β : Type} (P : α → Prop) [DecidablePred P]
    (f : α → β) (l : List α) (acc : List β) :
    l.foldl (fun a q => if P q then a ++ [f q] else a) acc =
      acc ++ l.filterMap (fun q => if P q then some (f q) else none) := by
  induction l generalizing acc with
  | nil => simp
  | cons x xs ih =>
    by_cases h : P x <;> simp [h, ih]

theorem data_asString (l : List Char) : (List.asString l).data = l := rfl

theorem all_dropWhile_iff (p : Char → Bool) (l : List Char) :
    (∀ x ∈ l.dropWhile p, p x = true) ↔ (∀ x ∈ l, p x = true) := by
  constructor
  · intro h x hx
    rw [← List.takeWhile_append_dropWhile (p := p) (l := l)] at hx
    rcases List.mem_append.1 hx with h1 | h2
    · exact List.mem_takeWhile_imp h1
    · exact h x h2
  · intro h x hx
    exact h x ((List.dropWhile_sublist p).subset hx)

theorem jsTrim_eq_empty_iff (s : String) :
    (jsTrim s = "") ↔ s.toList.all Char.isWhitespace = true := by
  unfold jsTrim
  rw [show ("" : String) = List.asString [] from rfl]
  constructor
  · intro h
    have h0 : (((s.toList.dropWhile Char.isWhitespace).reverse.dropWhile
        Char.isWhitespace).reverse) = [] := by
      have := congrArg String.toList h
      simpa [String.toList, data_asString] using this
    rw [List.reverse_eq_nil_iff, List.dropWhile_eq_nil_iff] at h0
    rw [List.all_eq_true]
    rw [← all_dropWhile_iff Char.isWhitespace s.toList]
    intro x hx
    exact h0 x (List.mem_reverse.2 hx)
  · intro h
    rw [List.all_eq_true] at h
    have h1 : s.toList.dropWhile Char.isWhitespace = [] :=
      List.dropWhile_eq_nil_iff.2 fun x hx => h x hx
    rw [h1]
    rfl

theorem outer_transform {α β : Type} (step1 : List β → α → List β)
    (g : α → List β) (hstep : ∀ acc p, step1 acc p = acc ++ g p)
    (l : List α) (acc : List β) :
    l.foldl step1 acc = acc ++ (l.map g).flatten := by
  induction l generalizing acc with
  | nil => simp
  | cons x xs ih =>
    rw [List.foldl_cons, hstep, ih]
    simp

theorem pasteCellChanges_eq_spec (r c : Int) (maxRows dataCols : ℕ)
    (text : String) :
    pasteCellChanges r c maxRows ((dataCols : ℕ) : Int) text =
      specPasteChanges r c maxRows dataCols text := by
  unfold pasteCellChanges specPasteChanges
  dsimp only
  refine Eq.trans (outer_transform _ (fun p : ℕ × String =>
      if jsTrim p.2 = "" then []
      else (if jsIncludes '\t' p.2 then jsSplit '\t' p.2 else [p.2]).enum.filterMap
        (fun q : ℕ × String =>
          if 0 ≤ r + (p.1 : Int) ∧ r + (p.1 : Int) < (maxRows : Int) ∧
              0 ≤ c + (q.1 : Int) ∧ c + (q.1 : Int) < ((dataCols : ℕ) : Int) then
            some ⟨r + (p.1 : Int), c + (q.1 : Int),
              if jsTrim q.2 = "" then "0" else jsTrim q.2⟩
          else none)) ?_ _ []) ?_
  · intro acc p
    by_cases hb : jsTrim p.2 = ""
    · simp [hb]
    · simp only [hb, if_false]
      rw [foldl_pushIf_filterMap]
  · rw [List.nil_append]
    congr 1
    apply List.map_congr_left
    intro p _
    by_cases hb : jsTrim p.2 = ""
    · rw [if_pos hb, if_pos ((jsTrim_eq_empty_iff p.2).1 hb)]
    · rw [if_neg hb, if_neg (fun hall => hb ((jsTrim_eq_empty_iff p.2).2 hall))]
      cases hincl : jsIncludes '\t' p.2 <;> simp [hincl]

/-- C1: with editing enabled, a cell selected, and the table rendered with
`maxRows > 0` body rows whose first row carries `dataColumnCount + 1` `td`
cells (the sticky row header plus the data columns), `handlePaste` emits
exactly the changes of the specification algorithm `specPasteChanges` —
blank lines skipped without consuming a row, tab-or-whole-line splitting,
clipping to `[0, maxRows) × [0, dataColumnCount)`, trimming with `"0"` for
blanks, in line order then value order — routed through the batch callback
when available and more than one change resulted, else per cell. -/
theorem claim_C1_paste_matches_spec (cfg : Config) (t : TableModel)
    (s : EngineState) (sel : SpreadsheetCell) (dataCols : ℕ) (text : String)
    (hdis : cfg.isEditingDisabled = false)
    (hsel : s.selectedCell = some sel)
    (hrows : 0 < t.numRows)
    (hcols : t.firstRowTds = dataCols + 1) :
    handlePaste cfg (some t) s text =
      (s, dispatchChanges cfg
        (specPasteChanges sel.row sel.col t.numRows dataCols text)) := by
  unfold handlePaste
  rw [hsel]
  simp only [hdis, Bool.false_eq_true, if_false]
  have h0 : ¬ t.numRows = 0 := Nat.pos_iff_ne_zero.1 hrows
  simp only [h0, if_false]
  rw [hcols]
  have hcast : ((dataCols + 1 : ℕ) : Int) - 1 = ((dataCols : ℕ) : Int) := by
    push_cast
    ring
  rw [hcast, pasteCellChanges_eq_spec]

theorem claim_C1_paste_matches_spec_witness :
    handlePaste ⟨2, false, none, true⟩ (some ⟨2, 3, 3, fun _ _ => ""⟩)
        ⟨some ⟨0, 0, ""⟩, none, ""⟩ "1\t2\t3\n4\t5\t6\n7\t8\t9" =
      (⟨some ⟨0, 0, ""⟩, none, ""⟩,
        dispatchChanges ⟨2, false, none, true⟩
          (specPasteChanges 0 0 2 2 "1\t2\t3\n4\t5\t6\n7\t8\t9")) ∧
    specPasteChanges 0 0 2 2 "1\t2\t3\n4\t5\t6\n7\t8\t9" =
      [⟨0, 0, "1"⟩, ⟨0, 1, "2"⟩, ⟨1, 0, "4"⟩, ⟨1, 1, "5"⟩] ∧
    dispatchChanges ⟨2, false, none, true⟩
        (specPasteChanges 0 0 2 2 "1\t2\t3\n4\t5\t6\n7\t8\t9") =
      [SpreadsheetEvent.batchCellChange
        [⟨0, 0, "1"⟩, ⟨0, 1, "2"⟩, ⟨1, 0, "4"⟩, ⟨1, 1, "5"⟩]] :=
  ⟨claim_C1_paste_matches_spec ⟨2, false, none, true⟩ ⟨2, 3, 3, fun _ _ => ""⟩
      ⟨some ⟨0, 0, ""⟩, none, ""⟩ ⟨0, 0, ""⟩ 2 "1\t2\t3\n4\t5\t6\n7\t8\t9"
      rfl rfl (by decide) rfl,
   by decide, by decide⟩

/-! ## Claim C3: the format/parse round trip -/

/-- Value of a little-endian digit list. -/
def ofDigitsLE (l : List ℕ) : ℕ := l.foldr (fun d r => d + 10 * r) 0

theorem natToDigitsLE_all_lt (fuel : ℕ) :
    ∀ n, ∀ d ∈ natToDigitsLE fuel n, d < 10 := by
  induction fuel with
  | zero => intro n d hd; simp [natToDigitsLE] at hd
  | succ f ih =>
    intro n d hd
    rw [natToDigitsLE] at hd
    by_cases hn : n = 0
    · simp [hn] at hd
    · simp only [hn, if_false] at hd
      rcases List.mem_cons.1 hd with rfl | h
      · exact Nat.mod_lt n (by norm_num)
      · exact ih (n / 10) d h

theorem ofDigitsLE_natToDigitsLE (fuel : ℕ) :
    ∀ n, n ≤ fuel → ofDigitsLE (natToDigitsLE fuel n) = n := by
  induction fuel with
  | zero =>
    intro n h
    interval_cases n
    rfl
  | succ f ih =>
    intro n h
    rw [natToDigitsLE]
    by_cases hn : n = 0
    · simp [hn, ofDigitsLE]
    · simp only [hn, if_false]
      have hdiv : n / 10 ≤ f := by
        have := Nat.div_lt_self (Nat.pos_of_ne_zero hn) (by norm_num : (1 : ℕ) < 10)
        omega
      show n % 10 + 10 * ofDigitsLE (natToDigitsLE f (n / 10)) = n
      rw [ih (n / 10) hdiv]
      omega

theorem digitsToNat_append_singleton (l : List Char) (ch : Char) :
    digitsToNat (l ++ [ch]) = 10 * digitsToNat l + (ch.toNat - 48) := by
  unfold digitsToNat
  rw [List.foldl_append]
  rfl

theorem digitsToNat_rev_map (l : List ℕ) (h : ∀ d ∈ l, d < 10) :
    digitsToNat (l.reverse.map digitChar) = ofDigitsLE l := by
  induction l with
  | nil => rfl
  | cons d t ih =>
    rw [List.reverse_cons, List.map_append, List.map_singleton,
      digitsToNat_append_singleton,
      ih (fun x hx => h x (List.mem_cons.2 (Or.inr hx)))]
    have hd : d < 10 := h d (List.mem_cons_self d t)
    have hch : (digitChar d).toNat - 48 = d := by interval_cases d <;> decide
    rw [hch]
    show 10 * ofDigitsLE t + d = d + 10 * ofDigitsLE t
    omega

theorem digitsToNat_natToDigits (n : ℕ) : digitsToNat (natToDigits n) = n := by
  unfold natToDigits
  by_cases hn : n = 0
  · simp [hn]
    decide
  · simp only [hn, if_false]
    rw [digitsToNat_rev_map _ (natToDigitsLE_all_lt n n),
      ofDigitsLE_natToDigitsLE n n le_rfl]

theorem natToDigits_all_digit (n : ℕ) :
    ∀ ch ∈ natToDigits n, ch.isDigit = true := by
  intro ch hch
  unfold natToDigits at hch
  by_cases hn : n = 0
  · simp [hn] at hch
    rw [hch]
    decide
  · simp only [hn, if_false] at hch
    rw [List.mem_map] at hch
    obtain ⟨d, hd, rfl⟩ := hch
    have : d < 10 := natToDigitsLE_all_lt n n d (List.mem_reverse.1 hd)
    interval_cases d <;> decide

theorem natToDigits_ne_nil (n : ℕ) : natToDigits n ≠ [] := by
  unfold natToDigits
  by_cases hn : n = 0
  · simp [hn]
  · simp only [hn, if_false]
    obtain ⟨f, rfl⟩ := Nat.exists_eq_succ_of_ne_zero hn
    rw [natToDigitsLE]
    simp

theorem digit_not_ws (ch : Char) (h : ch.isDigit = true) :
    ch.isWhitespace = false := by
  cases hw : ch.isWhitespace
  · rfl
  · exfalso
    have hw' := hw
    simp [Char.isWhitespace] at hw'
    rcases hw' with ((rfl | rfl) | rfl) | rfl <;> exact absurd h (by decide)

theorem keep_of_digit (ch : Char) (h : ch.isDigit = true) :
    (!(decide (ch = ',') || ch.isWhitespace)) = true := by
  have h1 : ch ≠ ',' := by
    rintro rfl
    exact absurd h (by decide)
  simp [h1, digit_not_ws ch h]

theorem chunk3_flatten (l : List Char) : (chunk3 l).flatten = l := by
  induction l using chunk3.induct <;> simp_all [chunk3]

theorem joinWithComma_filter (p : Char → Bool) (hp : p ',' = false) :
    ∀ L : List (List Char), (∀ g ∈ L, ∀ ch ∈ g, p ch = true) →
      (joinWithComma L).filter p = L.flatten := by
  intro L
  induction L with
  | nil => intro _; rfl
  | cons g gs ih =>
    intro h
    cases gs with
    | nil =>
      show g.filter p = g ++ [].flatten
      simp [List.filter_eq_self.2 (h g (List.mem_cons_self g []))]
    | cons g2 t =>
      show ((g ++ ',' :: joinWithComma (g2 :: t)).filter p) = g ++ (g2 :: t).flatten
      rw [List.filter_append, List.filter_cons_of_neg (by simp [hp]),
        List.filter_eq_self.2 (h g (List.mem_cons_self g (g2 :: t))),
        ih (fun x hx ch hch => h x (List.mem_cons.2 (Or.inr hx)) ch hch)]

theorem flatten_reverse_map_reverse (L : List (List Char)) :
    ((L.map List.reverse).reverse).flatten = L.flatten.reverse := by
  induction L with
  | nil => rfl
  | cons g t ih => simp [ih]

theorem filter_groupThousands (p : Char → Bool) (ds : List Char)
    (hp : p ',' = false) (h : ∀ ch ∈ ds, p ch = true) :
    (groupThousands ds).filter p = ds := by
  unfold groupThousands
  rw [joinWithComma_filter p hp _ ?_]
  · rw [flatten_reverse_map_reverse, chunk3_flatten, List.reverse_reverse]
  · intro g hg ch hch
    rw [List.mem_reverse, List.mem_map] at hg
    obtain ⟨g', hg', rfl⟩ := hg
    have hm : ch ∈ (chunk3 ds.reverse).flatten :=
      List.mem_flatten.2 ⟨g', hg', List.mem_reverse.1 hch⟩
    rw [chunk3_flatten, List.mem_reverse] at hm
    exact h ch hm

theorem takeWhile_all (p : Char → Bool) (l : List Char)
    (h : ∀ x ∈ l, p x = true) : l.takeWhile p = l := by
  induction l with
  | nil => rfl
  | cons a t ih =>
    rw [List.takeWhile_cons_of_pos (h a (List.mem_cons_self a t)),
      ih (fun x hx => h x (List.mem_cons.2 (Or.inr hx)))]

theorem toList_asString (l : List Char) : (List.asString l).toList = l := rfl

theorem digitsToNat_nil : digitsToNat [] = 0 := rfl

theorem jsParseFloat_int (sgn ds : List Char)
    (hs : sgn = [] ∨ sgn = ['-'] ∨ sgn = ['+'])
    (hne : ds ≠ []) (hdig : ∀ ch ∈ ds, ch.isDigit = true) :
    jsParseFloat (sgn ++ ds).asString =
      some ((if sgn = ['-'] then (-1 : ℚ) else 1) * (digitsToNat ds : ℚ)) := by
  obtain ⟨d, tl, rfl⟩ := List.exists_cons_of_ne_nil hne
  have hd : d.isDigit = true := hdig d (List.mem_cons_self d tl)
  have hdm : d ≠ '-' := by rintro rfl; exact absurd hd (by decide)
  have hdp : d ≠ '+' := by rintro rfl; exact absurd hd (by decide)
  have hdw : d.isWhitespace = false := digit_not_ws d hd
  have htake : (d :: tl).takeWhile Char.isDigit = d :: tl :=
    takeWhile_all Char.isDigit (d :: tl) hdig
  have hdrop : (d :: tl).dropWhile Char.isDigit = [] :=
    List.dropWhile_eq_nil_iff.2 (fun x hx => hdig x hx)
  unfold jsParseFloat
  rw [toList_asString]
  rcases hs with rfl | rfl | rfl
  · rw [List.nil_append, List.dropWhile_cons]
    simp only [hdw, Bool.false_eq_true, if_false, List.head?_cons,
      List.tail_cons, Option.some.injEq, hdm, hdp, or_self, if_false]
    rw [htake, hdrop]
    simp [List.cons_ne_nil, digitsToNat_nil, hdm]
  · rw [List.cons_append, List.nil_append, List.dropWhile_cons]
    simp only [show ('-').isWhitespace = false from rfl, Bool.false_eq_true,
      if_false, List.head?_cons, List.tail_cons, Option.some.injEq]
    simp only [show ('-' : Char) = '-' from rfl, true_or, if_true]
    rw [htake, hdrop]
    simp [List.cons_ne_nil, digitsToNat_nil]
  · rw [List.cons_append, List.nil_append, List.dropWhile_cons]
    simp only [show ('+').isWhitespace = false from rfl, Bool.false_eq_true,
      if_false, List.head?_cons, List.tail_cons, Option.some.injEq]
    simp only [show ('+' : Char) ≠ '-' from by decide, false_or,
      show ('+' : Char) = '+' from rfl, if_true]
    rw [htake, hdrop]
    simp [List.cons_ne_nil, digitsToNat_nil,
      show ('+' : Char) ≠ '-' from by decide]

theorem formatCellValue_int (k : ℤ) :
    formatCellValue (.num ((k : ℤ) : ℚ)) false =
      ((if k < 0 then ['-'] else []) ++
        groupThousands (natToDigits k.natAbs)).asString := by
  show intlFormat ((k : ℤ) : ℚ) (if false = true then (none : Option ℕ).getD 2
    else (none : Option ℕ).getD 0) = _
  simp only [Bool.false_eq_true, if_false, Option.getD_none]
  unfold intlFormat
  dsimp only
  have habs : |((k : ℤ) : ℚ)| = ((k.natAbs : ℕ) : ℚ) :=
    ((Nat.cast_natAbs k).trans Int.cast_abs).symm
  rw [habs, pow_zero, mul_one, round_natCast, Int.toNat_natCast, pow_zero,
    Nat.div_one]
  simp only [Int.cast_lt_zero, if_pos rfl]
  by_cases hk : k < 0
  · simp [hk]
  · simp [hk]

theorem parse_format_int (k : ℤ) :
    parseNumberInput (((if k < 0 then ['-'] else []) ++
        groupThousands (natToDigits k.natAbs)).asString) = ((k : ℤ) : ℚ) := by
  have hstrip : stripSeparators (((if k < 0 then ['-'] else []) ++
      groupThousands (natToDigits k.natAbs)).asString) =
      ((if k < 0 then ['-'] else []) ++ natToDigits k.natAbs).asString := by
    unfold stripSeparators
    rw [toList_asString, List.filter_append,
      filter_groupThousands _ _ (by decide)
        (fun ch hch => keep_of_digit ch (natToDigits_all_digit k.natAbs ch hch))]
    by_cases hk : k < 0 <;> simp [hk]
  unfold parseNumberInput
  rw [hstrip, jsParseFloat_int (if k < 0 then ['-'] else [])
    (natToDigits k.natAbs)
    (by by_cases hk : k < 0 <;> simp [hk])
    (natToDigits_ne_nil _) (natToDigits_all_digit _)]
  show (if (if k < 0 then ['-'] else []) = ['-'] then (-1 : ℚ) else 1) *
    (digitsToNat (natToDigits k.natAbs) : ℚ) = ((k : ℤ) : ℚ)
  rw [digitsToNat_natToDigits]
  have hcast : ((k.natAbs : ℕ) : ℚ) = |((k : ℤ) : ℚ)| :=
    (Nat.cast_natAbs k).trans Int.cast_abs
  by_cases hk : k < 0
  · simp only [hk, if_true, if_pos rfl]
    rw [hcast, abs_of_neg (by exact_mod_cast hk)]
    ring
  · simp only [hk, if_false]
    rw [if_neg (by simp), hcast,
      abs_of_nonneg (by exact_mod_cast not_lt.1 hk)]
    ring

/-- C3 (counterexample): for the valid separator-free numeric string
`"0.5"`, the monthly-precision round trip fails:
`parseNumberInput "0.5" = 1/2`, `formatCellValue` at monthly precision 0
rounds it to `"1"`, and reparsing gives `1 ≠ 1/2`. -/
theorem claim_C3_counterexample :
    parseNumberInput (formatCellValue (.num (parseNumberInput "0.5")) false) ≠
      parseNumberInput "0.5" := by decide

/-- A separator-free integer numeral: an optional `'-'` or `'+'` sign
followed by at least one decimal digit. -/
def IntLiteralString (s : String) : Prop :=
  ∃ sgn ds, (sgn = ([] : List Char) ∨ sgn = ['-'] ∨ sgn = ['+']) ∧
    ds ≠ [] ∧ (∀ ch ∈ ds, ch.isDigit = true) ∧ s.toList = sgn ++ ds

/-- C3 (amended): the round trip
`parseUserInput (formatForDisplay (parseUserInput s)) = parseUserInput s`
(with `parseUserInput = parseNumberInput` and `formatForDisplay` =
`formatCellValue` at monthly precision 0) holds for every separator-free
integer numeral `s`; it fails for fractional inputs, which precision 0
rounds (see the counterexample). -/
theorem claim_C3_amended_roundtrip (s : String) (h : IntLiteralString s) :
    parseNumberInput (formatCellValue (.num (parseNumberInput s)) false) =
      parseNumberInput s := by
  obtain ⟨sgn, ds, hsg, hne, hdig, hlist⟩ := h
  have hstrip : stripSeparators s = (sgn ++ ds).asString := by
    unfold stripSeparators
    rw [hlist, List.filter_eq_self.2 ?_]
    intro ch hch
    rcases List.mem_append.1 hch with h1 | h2
    · rcases hsg with rfl | rfl | rfl
      · simp at h1
      · rw [List.mem_singleton.1 h1]
        decide
      · rw [List.mem_singleton.1 h1]
        decide
    · exact keep_of_digit ch (hdig ch h2)
  have hparse : parseNumberInput s =
      (if sgn = ['-'] then (-1 : ℚ) else 1) * (digitsToNat ds : ℚ) := by
    unfold parseNumberInput
    rw [hstrip, jsParseFloat_int sgn ds hsg hne hdig]
  have hq : parseNumberInput s =
      (((if sgn = ['-'] then -(digitsToNat ds : ℤ) else (digitsToNat ds : ℤ)) : ℤ) : ℚ) := by
    rw [hparse]
    by_cases hsgn : sgn = ['-'] <;> simp [hsgn]
  rw [hq, formatCellValue_int, parse_format_int]

theorem claim_C3_amended_roundtrip_witness :
    parseNumberInput (formatCellValue (.num (parseNumberInput "-1234")) false) =
      parseNumberInput "-1234" ∧
    formatCellValue (.num (parseNumberInput "-1234")) false = "-1,234" ∧
    parseNumberInput "-1234" = -1234 :=
  ⟨claim_C3_amended_roundtrip "-1234"
      ⟨['-'], ['1', '2', '3', '4'], Or.inr (Or.inl rfl), by decide, by decide, rfl⟩,
   by decide, by decide⟩
